import Mathlib

/-!
Shallow embedding of `create_contact_sheet_image` (src/app.py, lines 51-108),
the frame-sampling and contact-sheet-assembly pipeline of the tiktok-tool
repository, together with proofs about the sampling interval, the sampling
loop, the thumbnail normalizer and the sheet assembler.

Machine arithmetic: Python ints are unbounded, so they are `ℕ`/`ℤ`; the
floating-point values `cap.get(cv2.CAP_PROP_FPS)` and `height / width` are
modelled as exact rationals `ℚ`.
-/

namespace App

/-- One decoded video frame as returned by `cap.read()`.  Only the pixel
dimensions are tracked: the BGR→RGB colour conversion at app.py:79 is
dimension-preserving and no property below depends on pixel values. -/
structure Frame where
  width : ℕ
  height : ℕ
deriving DecidableEq

/-- A resized thumbnail (the PIL image produced by `resize` at app.py:87). -/
structure Thumb where
  width : ℕ
  height : ℕ
deriving DecidableEq

/-- Why `cap.read()` started returning `ret = False`: genuine end of stream,
or a mid-stream decode failure.  OpenCV reports both identically through
`ret`, and app.py:75-76 breaks out of the loop on either; the constructor
records which of the two actually happened so that behaviour under a decode
failure can be stated. -/
inductive StreamEnd where
  | eos
  | decodeFail
deriving DecidableEq

/-- The state of `cv2.VideoCapture(video_path)` as app.py observes it:
`opened` is `cap.isOpened()` (app.py:54), `fps` is
`cap.get(cv2.CAP_PROP_FPS)` (app.py:58), `frameTotal` is `int(cap.get(7))`
(app.py:59, container metadata which may be zero or disagree with the actual
stream), `frames` lists the frames successfully returned by `cap.read()`
before the first `ret = False`, and `ending` records why reads stopped. -/
structure Decoder where
  opened : Bool
  fps : ℚ
  frameTotal : ℤ
  frames : List Frame
  ending : StreamEnd
deriving DecidableEq

/-- The message the function surfaces via `st.error` / `st.warning` on its
early-return paths (app.py:55, app.py:61, app.py:98). -/
inductive Msg where
  | sourceUnreadable
  | frameRateUnavailable
  | noFramesCaptured
deriving DecidableEq

/-- The assembled contact sheet (app.py:101-106): the canvas dimensions and,
for every thumbnail in order, the offset it is pasted at. -/
structure Sheet where
  width : ℕ
  height : ℕ
  placements : List ((ℕ × ℕ) × Thumb)
deriving DecidableEq

/-- Everything observable about one run of `create_contact_sheet_image`: the
returned image (`none` on the `return None` paths), whether `cap.release()`
(app.py:95) was executed, the message shown, and the sequence of fractions
passed to `progress_bar.progress` (app.py:93). -/
structure Outcome where
  sheet : Option Sheet
  released : Bool
  message : Option Msg
  reports : List ℚ
deriving DecidableEq

/-- app.py:71. -/
def RESIZED_WIDTH : ℕ := 240

/-- app.py:83-87: `aspect_ratio = height / width` and
`new_height = int(RESIZED_WIDTH * aspect_ratio)`.  Python `int` truncates
toward zero, which on these non-negative values is the floor, so over exact
rationals `new_height = ⌊240 * h / w⌋`, i.e. natural division `240 * h / w`.
(A zero-width frame would raise `ZeroDivisionError` in Python; per spec §4.2
it is a contract violation of the decoder and never occurs.) -/
def normalize (f : Frame) : Thumb :=
  ⟨RESIZED_WIDTH, RESIZED_WIDTH * f.height / f.width⟩

/-- app.py:64-66: `capture_interval = math.floor(video_fps /
capture_per_second)`, bumped to 1 when it is 0. -/
def capture_interval (fps : ℚ) (rate : ℕ) : ℤ :=
  let i := ⌊fps / (rate : ℚ)⌋
  if i = 0 then 1 else i

/-- app.py:73-93, the `while True` read loop with the `frame_count` counter
made explicit as `idx`.  Returns the list of collected resized images
together with the list of fractions sent to the progress bar: frame `idx` is
resized exactly when `frame_count % capture_interval == 0` (Lean's `%` on
`ℤ` agrees with Python's for the positive moduli that occur), and after every
frame — kept or not — the loop reports `frame_count / frame_total` when
`frame_total > 0`. -/
def sampleLoop (frames : List Frame) (k : ℤ) (total : ℤ) (idx : ℕ) :
    List Thumb × List ℚ :=
  match frames with
  | [] => ([], [])
  | f :: rest =>
    let next := sampleLoop rest k total (idx + 1)
    ((if (idx : ℤ) % k = 0 then [normalize f] else []) ++ next.1,
     (if 0 < total then [((idx + 1 : ℕ) : ℚ) / (total : ℚ)] else []) ++ next.2)

/-- app.py:101-106: `width, height = images[0].size`;
`total_width = width * len(images)`; a canvas of size `(total_width, height)`;
image `i` pasted at `(i * width, 0)`.  The `headD` default is never reached:
the caller only assembles when `images` is non-empty (app.py:97). -/
def assembleSheet (images : List Thumb) : Sheet :=
  let w := (images.headD ⟨0, 0⟩).width
  let h := (images.headD ⟨0, 0⟩).height
  ⟨w * images.length, h, images.enum.map (fun p => ((p.1 * w, 0), p.2))⟩

/-- app.py:51-108, `create_contact_sheet_image`.  Note the control flow of
the source: the two early `return None`s (app.py:56, app.py:62) happen before
any `cap.release()`, while `cap.release()` (app.py:95) runs before the empty
check (app.py:97), so `released` is `false` on the first two paths and `true`
on the last two. -/
def create_contact_sheet_image (d : Decoder) (capture_per_second : ℕ) : Outcome :=
  if ¬ d.opened then ⟨none, false, some .sourceUnreadable, []⟩
  else if d.fps = 0 then ⟨none, false, some .frameRateUnavailable, []⟩
  else
    let k := capture_interval d.fps capture_per_second
    let r := sampleLoop d.frames k d.frameTotal 0
    if r.1 = [] then ⟨none, true, some .noFramesCaptured, r.2⟩
    else ⟨some (assembleSheet r.1), true, none, r.2⟩

/-- C2: for every frame rate `fps > 0` and sample rate `rate ≥ 1`, the
interval computed at app.py:64-66 equals `max 1 ⌊fps / rate⌋`, and in
particular is always at least 1 even when the rate exceeds the frame rate. -/
theorem capture_interval_eq_max (fps : ℚ) (rate : ℕ) (hf : 0 < fps) (hr : 1 ≤ rate) :
    capture_interval fps rate = max 1 ⌊fps / (rate : ℚ)⌋ ∧
    1 ≤ capture_interval fps rate := by
  have hr0 : (0 : ℚ) < (rate : ℚ) := by exact_mod_cast Nat.lt_of_lt_of_le Nat.zero_lt_one hr
  have hq : 0 ≤ fps / (rate : ℚ) := le_of_lt (div_pos hf hr0)
  have hfl : 0 ≤ ⌊fps / (rate : ℚ)⌋ := Int.floor_nonneg.2 hq
  unfold capture_interval
  by_cases h : ⌊fps / (rate : ℚ)⌋ = 0
  · simp [h]
  · have h1 : 1 ≤ ⌊fps / (rate : ℚ)⌋ := by omega
    simp only [h, if_false]
    exact ⟨(max_eq_right h1).symm, h1⟩

theorem capture_interval_eq_max_witness :
    (0 : ℚ) < 30 ∧ 1 ≤ 2 ∧
      (capture_interval 30 2 = max 1 ⌊(30 : ℚ) / ((2 : ℕ) : ℚ)⌋ ∧
        1 ≤ capture_interval 30 2) :=
  ⟨by norm_num, by norm_num, capture_interval_eq_max 30 2 (by norm_num) (by norm_num)⟩

/-- C5: a thumbnail made from a source frame of width `w > 0` and height `h`
has width 240 (the configured target width) and height within 1 of
`round (h / w * 240)`: app.py:85 truncates (`int`) instead of rounding, which
differs from the round by at most one unit. -/
theorem normalize_width_and_height (w h : ℕ) (hw : 0 < w) :
    (normalize ⟨w, h⟩).width = 240 ∧
    |((normalize ⟨w, h⟩).height : ℤ) - round ((h : ℚ) / (w : ℚ) * 240)| ≤ 1 := by
  refine ⟨rfl, ?_⟩
  set x : ℚ := (h : ℚ) / (w : ℚ) * 240 with hx
  have hx0 : 0 ≤ x := by positivity
  have hxe : x = ((240 * h : ℕ) : ℚ) / ((w : ℕ) : ℚ) := by rw [hx]; push_cast; ring
  have hfl : ((normalize ⟨w, h⟩).height : ℤ) = ⌊x⌋ := by
    have h1 : ⌊((240 * h : ℕ) : ℚ) / ((w : ℕ) : ℚ)⌋₊ = 240 * h / w :=
      Nat.floor_div_eq_div (240 * h) w
    have h2 : (normalize ⟨w, h⟩).height = ⌊x⌋₊ := by rw [hxe, h1]; rfl
    rw [h2, Int.natCast_floor_eq_floor hx0]
  have hr : round x = ⌊x + 1 / 2⌋ := round_eq x
  have hb1 : ⌊x⌋ ≤ ⌊x + 1 / 2⌋ := Int.floor_mono (by linarith)
  have hb2 : ⌊x + 1 / 2⌋ ≤ ⌊x⌋ + 1 := by
    have h3 : ⌊x + 1⌋ = ⌊x⌋ + 1 := by exact_mod_cast Int.floor_add_int x 1
    calc ⌊x + 1 / 2⌋ ≤ ⌊x + 1⌋ := Int.floor_mono (by linarith)
      _ = ⌊x⌋ + 1 := h3
  rw [hfl, hr, abs_le]
  omega

theorem normalize_width_and_height_witness :
    0 < (1080 : ℕ) ∧
      ((normalize ⟨1080, 1920⟩).width = 240 ∧
        |((normalize ⟨1080, 1920⟩).height : ℤ) -
            round (((1920 : ℕ) : ℚ) / ((1080 : ℕ) : ℚ) * 240)| ≤ 1) :=
  ⟨by norm_num, normalize_width_and_height 1080 1920 (by norm_num)⟩


lemma sampleLoop_fst (m : ℕ) (total : ℤ) (frames : List Frame) :
    ∀ j : ℕ,
      (sampleLoop frames (m : ℤ) total j).1
        = ((frames.enumFrom j).filter fun p => p.1 % m == 0).map fun p => normalize p.2 := by
  induction frames with
  | nil => intro j; simp [sampleLoop]
  | cons f rest ih =>
    intro j
    have hcast : ((j : ℤ) % (m : ℤ) = 0) ↔ j % m = 0 := by omega
    by_cases hj : j % m = 0
    · simp [sampleLoop, List.enumFrom_cons, hcast.2 hj, hj, ih (j + 1)]
    · have hne : ¬ ((j : ℤ) % (m : ℤ) = 0) := fun hc => hj (hcast.1 hc)
      simp [sampleLoop, List.enumFrom_cons, hne, hj, ih (j + 1)]

lemma enumFrom_filter_fst_length (p : ℕ → Bool) (l : List Frame) :
    ∀ j : ℕ,
      ((l.enumFrom j).filter fun q => p q.1).length
        = ((List.range' j l.length).filter p).length := by
  induction l with
  | nil => intro j; simp
  | cons f rest ih =>
    intro j
    rw [List.enumFrom_cons, show (f :: rest).length = rest.length + 1 from rfl,
      List.range'_succ]
    by_cases hj : p j
    · simp [hj, ih (j + 1)]
    · simp [hj, ih (j + 1)]

lemma range_filter_mod_length (m : ℕ) (hm : 1 ≤ m) :
    ∀ n : ℕ, ((List.range n).filter fun i => i % m == 0).length = (n + m - 1) / m := by
  intro n
  induction n with
  | zero => simp [Nat.div_eq_of_lt (show m - 1 < m by omega)]
  | succ n ih =>
    rw [List.range_succ, List.filter_append, List.length_append, ih]
    have he : n + 1 + m - 1 = (n + m - 1) + 1 := by omega
    rw [he, Nat.succ_div]
    have hd : (m ∣ n + m - 1 + 1) ↔ (m ∣ n) := by
      rw [show n + m - 1 + 1 = n + m by omega]
      exact Nat.dvd_add_self_right
    by_cases hn : n % m = 0
    · have hdv : m ∣ n := Nat.dvd_iff_mod_eq_zero.2 hn
      simp [hn, hd.2 hdv]
    · have hdv : ¬ m ∣ n := fun hc => hn (Nat.dvd_iff_mod_eq_zero.1 hc)
      simp [hn, hd, hdv]


lemma add_pred_div_eq_ceil (n m : ℕ) (hm : 1 ≤ m) :
    (n + m - 1) / m = ⌈(n : ℚ) / (m : ℚ)⌉₊ := by
  have hm0 : 0 < m := hm
  have hmq : (0 : ℚ) < (m : ℚ) := by exact_mod_cast hm0
  apply le_antisymm
  · rw [Nat.div_le_iff_le_mul_add_pred hm0]
    have h1 : (n : ℚ) / m ≤ (⌈(n : ℚ) / m⌉₊ : ℚ) := Nat.le_ceil _
    rw [div_le_iff₀ hmq] at h1
    have h3 : n ≤ m * ⌈(n : ℚ) / m⌉₊ := by
      rw [mul_comm]
      exact_mod_cast h1
    omega
  · rw [Nat.ceil_le, div_le_iff₀ hmq]
    have h4 : (n + m - 1) / m * m + (n + m - 1) % m = n + m - 1 := Nat.div_add_mod' _ _
    have h5 : (n + m - 1) % m < m := Nat.mod_lt _ hm0
    have h6 : n ≤ (n + m - 1) / m * m := by omega
    exact_mod_cast h6

/-- C6: with interval `m ≥ 1`, the loop resizes exactly the frames whose
0-based index `i` satisfies `i % m = 0` (all other frames are dropped without
passing through `normalize`), so a stream of `n` frames yields exactly
`⌈n / m⌉ = (n + m - 1) / m` thumbnails. -/
theorem sampler_emits_multiples_of_interval (frames : List Frame) (m : ℕ) (total : ℤ)
    (hm : 1 ≤ m) :
    (sampleLoop frames (m : ℤ) total 0).1
        = (frames.enum.filter fun p => p.1 % m == 0).map (fun p => normalize p.2) ∧
    ((sampleLoop frames (m : ℤ) total 0).1).length
        = ⌈(frames.length : ℚ) / (m : ℚ)⌉₊ ∧
    ⌈(frames.length : ℚ) / (m : ℚ)⌉₊ = (frames.length + m - 1) / m := by
  have h1 := sampleLoop_fst m total frames 0
  have h2 := enumFrom_filter_fst_length (fun i => i % m == 0) frames 0
  have h3 := range_filter_mod_length m hm frames.length
  have henum : frames.enum = frames.enumFrom 0 := rfl
  have hrange : List.range' 0 frames.length = List.range frames.length :=
    (List.range_eq_range' _).symm
  refine ⟨by rw [henum]; exact h1, ?_, (add_pred_div_eq_ceil frames.length m hm).symm⟩
  rw [h1, List.length_map, h2, hrange, h3, add_pred_div_eq_ceil frames.length m hm]

theorem sampler_emits_multiples_of_interval_witness :
    1 ≤ 15 ∧
      ((sampleLoop (List.replicate 300 ⟨1080, 1920⟩) ((15 : ℕ) : ℤ) 300 0).1
          = ((List.replicate 300 (⟨1080, 1920⟩ : Frame)).enum.filter
              fun p => p.1 % 15 == 0).map (fun p => normalize p.2) ∧
        ((sampleLoop (List.replicate 300 (⟨1080, 1920⟩ : Frame)) ((15 : ℕ) : ℤ) 300 0).1).length
          = ⌈((List.replicate 300 (⟨1080, 1920⟩ : Frame)).length : ℚ) / ((15 : ℕ) : ℚ)⌉₊ ∧
        ⌈((List.replicate 300 (⟨1080, 1920⟩ : Frame)).length : ℚ) / ((15 : ℕ) : ℚ)⌉₊
          = ((List.replicate 300 (⟨1080, 1920⟩ : Frame)).length + 15 - 1) / 15) :=
  ⟨by norm_num,
    sampler_emits_multiples_of_interval (List.replicate 300 ⟨1080, 1920⟩) 15 300 (by norm_num)⟩

lemma sampleLoop_snd (m total : ℤ) (frames : List Frame) :
    ∀ j : ℕ,
      (sampleLoop frames m total j).2
        = if 0 < total then
            (List.range frames.length).map fun i => ((j + i + 1 : ℕ) : ℚ) / (total : ℚ)
          else [] := by
  induction frames with
  | nil => intro j; by_cases h : 0 < total <;> simp [sampleLoop, h]
  | cons f rest ih =>
    intro j
    by_cases h : 0 < total
    · rw [show (f :: rest).length = rest.length + 1 from rfl, List.range_succ_eq_map]
      simp only [sampleLoop, h, if_true, ih (j + 1), List.map_cons, List.map_map,
        List.singleton_append]
      congr 1
      refine List.map_congr_left fun a ha => ?_
      simp only [Function.comp_apply]
      push_cast
      ring
    · simp [sampleLoop, h, ih (j + 1)]


/-- C8 (amended): after every decoded frame the loop reports
`(index+1)/frameTotal` when the reported total is positive, and reports
nothing at all when it is zero or negative (unknown); each reported value
lies in [0, 1] provided the decoder yields no more frames than the reported
total (the hypothesis `hlen`). -/
theorem progress_reports_spec (frames : List Frame) (m total : ℤ)
    (hlen : (frames.length : ℤ) ≤ total) :
    (sampleLoop frames m total 0).2
        = (if 0 < total then
            (List.range frames.length).map fun i => ((i + 1 : ℕ) : ℚ) / (total : ℚ)
          else []) ∧
    (¬ 0 < total → (sampleLoop frames m total 0).2 = []) ∧
    (∀ q ∈ (sampleLoop frames m total 0).2, 0 ≤ q ∧ q ≤ 1) := by
  have h0 := sampleLoop_snd m total frames 0
  have heq : (sampleLoop frames m total 0).2
      = if 0 < total then
          (List.range frames.length).map fun i => ((i + 1 : ℕ) : ℚ) / (total : ℚ)
        else [] := by
    rw [h0]
    by_cases h : 0 < total
    · simp only [h, if_true]
      exact List.map_congr_left fun a ha => by norm_num
    · simp [h]
  refine ⟨heq, fun h => by rw [heq]; simp [h], ?_⟩
  intro q hq
  rw [heq] at hq
  by_cases h : 0 < total
  · simp only [h, if_true, List.mem_map, List.mem_range] at hq
    obtain ⟨i, hi, rfl⟩ := hq
    have htq : (0 : ℚ) < (total : ℚ) := by exact_mod_cast h
    refine ⟨by positivity, ?_⟩
    rw [div_le_one htq]
    have hle : ((i + 1 : ℕ) : ℤ) ≤ total := by omega
    exact_mod_cast hle
  · simp [h] at hq

theorem progress_reports_spec_witness :
    (([⟨1080, 1920⟩] : List Frame).length : ℤ) ≤ 1 ∧
      ((sampleLoop [⟨1080, 1920⟩] 15 1 0).2
          = (if (0 : ℤ) < 1 then
              (List.range ([⟨1080, 1920⟩] : List Frame).length).map
                fun i => ((i + 1 : ℕ) : ℚ) / ((1 : ℤ) : ℚ)
            else []) ∧
        (¬ (0 : ℤ) < 1 → (sampleLoop [⟨1080, 1920⟩] 15 1 0).2 = []) ∧
        (∀ q ∈ (sampleLoop [⟨1080, 1920⟩] 15 1 0).2, 0 ≤ q ∧ q ≤ 1)) :=
  ⟨by norm_num, progress_reports_spec [⟨1080, 1920⟩] 15 1 (by norm_num)⟩

/-- C8 counterexample: `frame_total` is container metadata and can
under-report the actual stream; with 2 decoded frames and `frame_total = 1`
the second value handed to the progress sink is `2/1 = 2`, outside [0, 1]. -/
theorem progress_report_exceeds_one :
    (create_contact_sheet_image ⟨true, 30, 1, [⟨1080, 1920⟩, ⟨1080, 1920⟩], .eos⟩ 30).reports
        = [1, 2] ∧
    ¬ ((2 : ℚ) ≤ 1) := by
  refine ⟨?_, by norm_num⟩
  norm_num [create_contact_sheet_image, capture_interval, sampleLoop, normalize, RESIZED_WIDTH]
  simp

/-- C3 counterexample: a decoder that fails mid-stream after one frame still
produces a contact sheet from the frames sampled before the failure — the
sampled frames are not discarded and output is emitted. -/
theorem decode_failure_emits_partial_sheet :
    (create_contact_sheet_image ⟨true, 30, 300, [⟨1080, 1920⟩], .decodeFail⟩ 2).sheet
        = some (assembleSheet [⟨240, 426⟩]) ∧
    some (assembleSheet [⟨240, 426⟩]) ≠ (none : Option Sheet) := by
  refine ⟨?_, by simp⟩
  norm_num [create_contact_sheet_image, capture_interval, sampleLoop, normalize, RESIZED_WIDTH]

/-- C3 (amended): `cap.read()` reports a mid-stream decode failure exactly
like end-of-stream, so the code cannot distinguish them: a run whose decoder
fails mid-stream is identical to the run whose stream cleanly ends at the
same point; the frames sampled before the failure are kept, and for a
non-empty stream a (partial) contact sheet is emitted rather than nothing. -/
theorem decode_failure_treated_as_eos (fps : ℚ) (total : ℤ) (frames : List Frame)
    (rate : ℕ) (hne : frames ≠ []) (hfps : ¬ fps = 0) :
    create_contact_sheet_image ⟨true, fps, total, frames, .decodeFail⟩ rate
        = create_contact_sheet_image ⟨true, fps, total, frames, .eos⟩ rate ∧
    (create_contact_sheet_image ⟨true, fps, total, frames, .decodeFail⟩ rate).sheet ≠ none := by
  refine ⟨rfl, ?_⟩
  obtain ⟨f, rest, rfl⟩ := List.exists_cons_of_ne_nil hne
  have h1 : (sampleLoop (f :: rest) (capture_interval fps rate) total 0).1
      = normalize f :: (sampleLoop rest (capture_interval fps rate) total 1).1 := by
    simp [sampleLoop]
  simp [create_contact_sheet_image, hfps, h1]

theorem decode_failure_treated_as_eos_witness :
    ([⟨1080, 1920⟩] : List Frame) ≠ [] ∧ ¬ (30 : ℚ) = 0 ∧
      (create_contact_sheet_image ⟨true, 30, 300, [⟨1080, 1920⟩], .decodeFail⟩ 2
          = create_contact_sheet_image ⟨true, 30, 300, [⟨1080, 1920⟩], .eos⟩ 2 ∧
        (create_contact_sheet_image ⟨true, 30, 300, [⟨1080, 1920⟩], .decodeFail⟩ 2).sheet
          ≠ none) :=
  ⟨by simp, by norm_num,
    decode_failure_treated_as_eos 30 300 [⟨1080, 1920⟩] 2 (by simp) (by norm_num)⟩

/-- C4 (code bug): with an opened capture reporting `fps = 0`, app.py:60-62
shows the error and returns `None` before control ever reaches
`cap.release()` (app.py:95).  No output is produced — that part matches the
claim — but `released` is `false`: the decode handle leaks on this failure
path. -/
theorem fps_zero_fails_without_release :
    create_contact_sheet_image ⟨true, 0, 300, [⟨1080, 1920⟩], .eos⟩ 2
        = ⟨none, false, some .frameRateUnavailable, []⟩ := by
  simp [create_contact_sheet_image]

/-- C9 counterexample: spec scenario 3 (interval 15, a 10-frame stream).
Frame index 0 satisfies `0 % 15 == 0` and is always captured, so sampling
yields one thumbnail — not zero — and the pipeline emits a sheet instead of
warning `NoFramesCaptured`. -/
theorem short_stream_still_captures_first_frame :
    ((sampleLoop (List.replicate 10 ⟨1080, 1920⟩) ((15 : ℕ) : ℤ) 10 0).1).length = 1 ∧
    (create_contact_sheet_image
        ⟨true, 30, 10, List.replicate 10 ⟨1080, 1920⟩, .eos⟩ 2).sheet
      = some (assembleSheet [⟨240, 426⟩]) ∧
    (create_contact_sheet_image
        ⟨true, 30, 10, List.replicate 10 ⟨1080, 1920⟩, .eos⟩ 2).message = none := by
  refine ⟨?_, ?_, ?_⟩ <;>
    norm_num [create_contact_sheet_image, capture_interval, sampleLoop, normalize,
      RESIZED_WIDTH, List.replicate]

/-- C9 (amended): zero frames survive sampling exactly when the decoder
yields no frames at all (a stream's frame 0 is always sampled when present);
in that case the pipeline warns `NoFramesCaptured` and returns no output
without crashing, and `cap.release()` has already run — in the model,
`released = true` on that path because app.py:95 precedes the empty check at
app.py:97-99. -/
theorem noFrames_warning_iff_empty_stream (fps : ℚ) (total : ℤ) (rate : ℕ)
    (ending : StreamEnd) (hfps : ¬ fps = 0) :
    create_contact_sheet_image ⟨true, fps, total, [], ending⟩ rate
        = ⟨none, true, some .noFramesCaptured, []⟩ ∧
    (∀ frames : List Frame, frames ≠ [] →
      (sampleLoop frames (capture_interval fps rate) total 0).1 ≠ []) := by
  constructor
  · simp [create_contact_sheet_image, hfps, sampleLoop]
  · intro frames hne
    obtain ⟨f, rest, rfl⟩ := List.exists_cons_of_ne_nil hne
    simp [sampleLoop]

theorem noFrames_warning_iff_empty_stream_witness :
    ¬ (30 : ℚ) = 0 ∧
      (create_contact_sheet_image ⟨true, 30, 0, [], .eos⟩ 2
          = ⟨none, true, some .noFramesCaptured, []⟩ ∧
        (∀ frames : List Frame, frames ≠ [] →
          (sampleLoop frames (capture_interval 30 2) 0 0).1 ≠ [])) :=
  ⟨by norm_num, noFrames_warning_iff_empty_stream 30 0 2 .eos (by norm_num)⟩


lemma assembleSheet_placements_length (ts : List Thumb) :
    (assembleSheet ts).placements.length = ts.length := by
  simp [assembleSheet]

lemma assembleSheet_placements_get (ts : List Thumb) (i : ℕ)
    (hi : i < (assembleSheet ts).placements.length) :
    ((assembleSheet ts).placements.get ⟨i, hi⟩).1
      = (i * (ts.headD ⟨0, 0⟩).width, 0) := by
  simp [assembleSheet, List.get_eq_getElem, List.getElem_map, List.getElem_enum]

/-- C1 counterexample: 45 thumbnails of size 240×426 under a column bound of
40.  The claim (and spec §8) require columns = min 45 40 = 40 and rows =
⌈45/40⌉ = 2, i.e. a canvas 40·240 = 9600 wide and 2·426 = 852 high; the
assembler at app.py:101-106 actually produces a single row: 45·240 = 10800
wide and 426 high. -/
theorem grid_layout_counterexample :
    (assembleSheet (List.replicate 45 ⟨240, 426⟩)).width = 10800 ∧
    ¬ ((assembleSheet (List.replicate 45 ⟨240, 426⟩)).width = 240 * min 45 40) ∧
    (assembleSheet (List.replicate 45 ⟨240, 426⟩)).height = 426 ∧
    ¬ ((assembleSheet (List.replicate 45 ⟨240, 426⟩)).height = 426 * 2) := by
  norm_num [assembleSheet, List.replicate]

/-- C1 (amended): the assembler takes no column bound and always lays the
thumbnails out in one row: for a non-empty sequence of `N` equally sized
thumbnails the realized layout is `columns = N`, `rows = 1` (canvas `N·tw`
wide and `1·th` high).  That layout still satisfies `columns · rows ≥ N`,
and it agrees with the claimed formulas `columns = min N C`,
`rows = ⌈N / columns⌉` exactly for bounds `C ≥ N`. -/
theorem single_row_layout (ts : List Thumb) (tw th : ℕ) (hne : ts ≠ [])
    (hdim : ∀ t ∈ ts, t.width = tw ∧ t.height = th) :
    (assembleSheet ts).width = ts.length * tw ∧
    (assembleSheet ts).height = 1 * th ∧
    ts.length * 1 ≥ ts.length ∧
    (∀ C : ℕ, ts.length ≤ C → min ts.length C = ts.length) ∧
    (ts.length + ts.length - 1) / ts.length = 1 := by
  obtain ⟨t0, rest, rfl⟩ := List.exists_cons_of_ne_nil hne
  obtain ⟨hw0, hh0⟩ := hdim t0 (List.mem_cons_self t0 rest)
  have hN : 0 < (t0 :: rest).length := by simp
  refine ⟨?_, ?_, by omega, fun C hC => min_eq_left hC, ?_⟩
  · simp [assembleSheet, hw0, Nat.mul_comm]
  · simp [assembleSheet, hh0]
  · exact Nat.div_eq_of_lt_le (by omega) (by omega)

theorem single_row_layout_witness :
    ([⟨240, 426⟩, ⟨240, 426⟩] : List Thumb) ≠ [] ∧
    (∀ t ∈ ([⟨240, 426⟩, ⟨240, 426⟩] : List Thumb), t.width = 240 ∧ t.height = 426) ∧
      ((assembleSheet [⟨240, 426⟩, ⟨240, 426⟩]).width
          = ([⟨240, 426⟩, ⟨240, 426⟩] : List Thumb).length * 240 ∧
        (assembleSheet [⟨240, 426⟩, ⟨240, 426⟩]).height = 1 * 426 ∧
        ([⟨240, 426⟩, ⟨240, 426⟩] : List Thumb).length * 1
          ≥ ([⟨240, 426⟩, ⟨240, 426⟩] : List Thumb).length ∧
        (∀ C : ℕ, ([⟨240, 426⟩, ⟨240, 426⟩] : List Thumb).length ≤ C →
          min ([⟨240, 426⟩, ⟨240, 426⟩] : List Thumb).length C
            = ([⟨240, 426⟩, ⟨240, 426⟩] : List Thumb).length) ∧
        (([⟨240, 426⟩, ⟨240, 426⟩] : List Thumb).length
            + ([⟨240, 426⟩, ⟨240, 426⟩] : List Thumb).length - 1)
          / ([⟨240, 426⟩, ⟨240, 426⟩] : List Thumb).length = 1) :=
  ⟨by simp, by simp, single_row_layout [⟨240, 426⟩, ⟨240, 426⟩] 240 426 (by simp) (by simp)⟩

/-- C7: for a non-empty sequence of uniformly sized thumbnails the canvas is
an exact multiple of the thumbnail dimensions — `width = columns · tw` and
`height = rows · th` for the layout the assembler realizes (`columns = N`,
`rows = 1`) — and thumbnail `i` is pasted at the offset
`((i mod columns) · tw, (i div columns) · th)`, a pure function of its index;
`assembleSheet` is a pure function, so assembling the same sequence twice
yields identical placements. -/
theorem canvas_dims_and_placement (ts : List Thumb) (tw th : ℕ) (hne : ts ≠ [])
    (hdim : ∀ t ∈ ts, t.width = tw ∧ t.height = th) :
    (assembleSheet ts).width = ts.length * tw ∧
    (assembleSheet ts).height = 1 * th ∧
    (∀ i, ∀ hi : i < (assembleSheet ts).placements.length,
      ((assembleSheet ts).placements.get ⟨i, hi⟩).1
        = ((i % ts.length) * tw, (i / ts.length) * th)) ∧
    assembleSheet ts = assembleSheet ts := by
  obtain ⟨t0, rest, rfl⟩ := List.exists_cons_of_ne_nil hne
  obtain ⟨hw0, hh0⟩ := hdim t0 (List.mem_cons_self t0 rest)
  refine ⟨?_, ?_, ?_, rfl⟩
  · simp [assembleSheet, hw0, Nat.mul_comm]
  · simp [assembleSheet, hh0]
  · intro i hi
    have hlen : i < (t0 :: rest).length := by
      simpa [assembleSheet_placements_length] using hi
    rw [assembleSheet_placements_get]
    rw [List.headD_cons, hw0, Nat.mod_eq_of_lt hlen, Nat.div_eq_of_lt hlen]
    simp

theorem canvas_dims_and_placement_witness :
    ([⟨240, 426⟩, ⟨240, 426⟩] : List Thumb) ≠ [] ∧
    (∀ t ∈ ([⟨240, 426⟩, ⟨240, 426⟩] : List Thumb), t.width = 240 ∧ t.height = 426) ∧
      ((assembleSheet [⟨240, 426⟩, ⟨240, 426⟩]).width
          = ([⟨240, 426⟩, ⟨240, 426⟩] : List Thumb).length * 240 ∧
        (assembleSheet [⟨240, 426⟩, ⟨240, 426⟩]).height = 1 * 426 ∧
        (∀ i, ∀ hi : i < (assembleSheet [⟨240, 426⟩, ⟨240, 426⟩]).placements.length,
          ((assembleSheet [⟨240, 426⟩, ⟨240, 426⟩]).placements.get ⟨i, hi⟩).1
            = ((i % ([⟨240, 426⟩, ⟨240, 426⟩] : List Thumb).length) * 240,
               (i / ([⟨240, 426⟩, ⟨240, 426⟩] : List Thumb).length) * 426)) ∧
        assembleSheet [⟨240, 426⟩, ⟨240, 426⟩] = assembleSheet [⟨240, 426⟩, ⟨240, 426⟩]) :=
  ⟨by simp, by simp,
    canvas_dims_and_placement [⟨240, 426⟩, ⟨240, 426⟩] 240 426 (by simp) (by simp)⟩

/-- C10: the canvas height is the height of the first thumbnail alone, the
canvas width is `240 · N` for thumbnails produced by the normalizer (all have
width 240), and thumbnail `i` is pasted at `(i·240, 0)` regardless of its own
height — so a thumbnail whose height differs from the first (a mid-video
resolution change) is silently cropped or leaves background; nothing fails
and the canvas is not resized.  The width hypothesis deliberately says
nothing about heights. -/
theorem single_row_canvas_ignores_later_heights (ts : List Thumb) (hne : ts ≠ [])
    (hw : ∀ t ∈ ts, t.width = 240) :
    (assembleSheet ts).height = (ts.headD ⟨0, 0⟩).height ∧
    (assembleSheet ts).width = 240 * ts.length ∧
    (∀ i, ∀ hi : i < (assembleSheet ts).placements.length,
      ((assembleSheet ts).placements.get ⟨i, hi⟩).1 = (i * 240, 0)) := by
  obtain ⟨t0, rest, rfl⟩ := List.exists_cons_of_ne_nil hne
  have hw0 : t0.width = 240 := hw t0 (List.mem_cons_self t0 rest)
  refine ⟨?_, ?_, ?_⟩
  · simp [assembleSheet]
  · simp [assembleSheet, hw0]
  · intro i hi
    rw [assembleSheet_placements_get, List.headD_cons, hw0]

theorem single_row_canvas_ignores_later_heights_witness :
    ([⟨240, 426⟩, ⟨240, 135⟩] : List Thumb) ≠ [] ∧
    (∀ t ∈ ([⟨240, 426⟩, ⟨240, 135⟩] : List Thumb), t.width = 240) ∧
      ((assembleSheet [⟨240, 426⟩, ⟨240, 135⟩]).height
          = (([⟨240, 426⟩, ⟨240, 135⟩] : List Thumb).headD ⟨0, 0⟩).height ∧
        (assembleSheet [⟨240, 426⟩, ⟨240, 135⟩]).width
          = 240 * ([⟨240, 426⟩, ⟨240, 135⟩] : List Thumb).length ∧
        (∀ i, ∀ hi : i < (assembleSheet [⟨240, 426⟩, ⟨240, 135⟩]).placements.length,
          ((assembleSheet [⟨240, 426⟩, ⟨240, 135⟩]).placements.get ⟨i, hi⟩).1
            = (i * 240, 0))) :=
  ⟨by simp, by simp,
    single_row_canvas_ignores_later_heights [⟨240, 426⟩, ⟨240, 135⟩] (by simp) (by simp)⟩

end App
